import Mathlib

/-!
RC4 (`src/rc4.c`): shallow embedding and verification.

Memory regions (`unsigned char *`) are lists of naturals, one cell per byte.
A pointer argument together with its `int` length becomes a list together
with a natural number; the lengths are taken in their non-negative range.
Every array access is checked: an index outside the region, and a `%` whose
right operand is zero, are undefined behaviour in C and end the run with a
`Fault`.  A store into an `unsigned char` cell keeps the low eight bits.
-/

namespace RC4

/-- Undefined behaviour that a run of the C code can reach. -/
inductive Fault where
  | divByZero
  | outOfBounds
  deriving DecidableEq, Repr

deriving instance DecidableEq for Except

/-- Read of `m[i]`. -/
def load (m : List Nat) (i : Nat) : Except Fault Nat :=
  match m[i]? with
  | some v => .ok v
  | none => .error .outOfBounds

/-- Write `m[i] = v` into an `unsigned char` cell. -/
def store (m : List Nat) (i v : Nat) : Except Fault (List Nat) :=
  if i < m.length then .ok (m.set i (v % 256)) else .error .outOfBounds

/-- The C expression `a % b` on non-negative `int`s. -/
def cmod (a b : Nat) : Except Fault Nat :=
  if b = 0 then .error .divByZero else .ok (a % b)

/-- Body of the first loop of `rc4_init` (line 12): `S[i] = i`. -/
def rc4_init_fill (S : List Nat) (i : Nat) : Except Fault (List Nat) :=
  store S i i

/-- Body of the second loop of `rc4_init` (lines 17-21); the loop state is
the accumulator `j` and the array `S`. -/
def rc4_init_body (key : List Nat) (keylen : Nat) (st : Nat × List Nat) (i : Nat) :
    Except Fault (Nat × List Nat) := do
  let (j, S) := st
  let r ← cmod i keylen
  let si ← load S i
  let kb ← load key r
  let j := (j + si + kb) % 256
  let temp ← load S i
  let sj ← load S j
  let S ← store S i sj
  let S ← store S j temp
  pure (j, S)

/-- The key scheduling algorithm `rc4_init(S, key, keylen)` (lines 6-23).
`S` is the caller's array with whatever it held before the call; the result
is the array after the call. -/
def rc4_init (S key : List Nat) (keylen : Nat) : Except Fault (List Nat) := do
  let S ← (List.range 256).foldlM rc4_init_fill S
  let (_, S) ← (List.range 256).foldlM (rc4_init_body key keylen) (0, S)
  pure S

/-- Body of the loop of `rc4_crypt` (lines 31-40) at position `k`; the loop
state is the cursors `i`, `j`, the array `S` and the buffer `data`. -/
def rc4_crypt_body (st : Nat × Nat × List Nat × List Nat) (k : Nat) :
    Except Fault (Nat × Nat × List Nat × List Nat) := do
  let (i, j, S, data) := st
  let i := (i + 1) % 256
  let si ← load S i
  let j := (j + si) % 256
  let temp ← load S i
  let sj ← load S j
  let S ← store S i sj
  let S ← store S j temp
  let a ← load S i
  let b ← load S j
  let ks ← load S ((a + b) % 256)
  let d ← load data k
  let data ← store data k (d ^^^ ks)
  pure (i, j, S, data)

/-- The loop of `rc4_crypt` (lines 30-41) for `k = 0 .. datalen-1`, started
with the cursor values `i` and `j`. -/
def rc4_crypt_loop (i j : Nat) (S data : List Nat) (datalen : Nat) :
    Except Fault (Nat × Nat × List Nat × List Nat) :=
  (List.range datalen).foldlM rc4_crypt_body (i, j, S, data)

/-- The keystream application `rc4_crypt(S, data, datalen)` (lines 26-42):
the cursors are locals set to 0 (line 27); the result is the array `S` and
the buffer `data` after the call. -/
def rc4_crypt (S data : List Nat) (datalen : Nat) : Except Fault (List Nat × List Nat) := do
  let (_, _, S, data) ← rc4_crypt_loop 0 0 S data datalen
  pure (S, data)

/-- The call `memcpy(dst, src, n)`. -/
def memcpy (dst src : List Nat) (n : Nat) : Except Fault (List Nat) :=
  if n ≤ dst.length ∧ n ≤ src.length then .ok (src.take n ++ dst.drop n)
  else .error .outOfBounds

/-- The exported `rc4_process(input, inputLen, key, keyLen)` (lines 46-64).
`malloc n` is the outcome of the call `malloc(n)`: `none` for `NULL`, or a
fresh block.  `S` is the content of the uninitialised local array
`unsigned char S[256]` when the function is entered.  The result is `none`
for a returned `NULL` and the returned buffer otherwise. -/
def rc4_process (malloc : Nat → Option (List Nat)) (S : List Nat)
    (input : List Nat) (inputLen : Nat) (key : List Nat) (keyLen : Nat) :
    Except Fault (Option (List Nat)) :=
  match malloc inputLen with
  | none => pure none
  | some output => do
    let output ← memcpy output input inputLen
    let S ← rc4_init S key keyLen
    let (_, output) ← rc4_crypt S output inputLen
    pure (some output)

/-- The exported `allocate_memory(size)` (lines 68-70). -/
def allocate_memory (malloc : Nat → Option (List Nat)) (size : Nat) : Option (List Nat) :=
  malloc size

/-- An allocator that always succeeds, with a zeroed block of the requested size. -/
def mallocZero (n : Nat) : Option (List Nat) := some (List.replicate n 0)

/-- The state is a permutation of {0,...,255}: 256 cells, no two equal,
every value 0..255 present. -/
def IsPerm (S : List Nat) : Prop :=
  S.length = 256 ∧ S.Nodup ∧ ∀ v, v < 256 → v ∈ S

instance (S : List Nat) : Decidable (IsPerm S) := by
  unfold IsPerm; infer_instance

/-- Every cell of the region holds a byte. -/
def IsBytes (D : List Nat) : Prop := ∀ d ∈ D, d < 256

instance (D : List Nat) : Decidable (IsBytes D) := by
  unfold IsBytes; infer_instance

/-- The array is a region of 256 bytes, as `unsigned char S[256]`. -/
def IsState (S : List Nat) : Prop := S.length = 256 ∧ IsBytes S

instance (S : List Nat) : Decidable (IsState S) := by
  unfold IsState; infer_instance

/-! ## Pure readings of the loop bodies, used in the proofs -/

/-- Exchange of the cells `i` and `j`. -/
def swapCells (S : List Nat) (i j : Nat) : List Nat :=
  (S.set i (S.getD j 0)).set j (S.getD i 0)

/-- One round of the key schedule without the bounds checks. -/
def ksaStep (key : List Nat) (keylen : Nat) (st : Nat × List Nat) (i : Nat) : Nat × List Nat :=
  let j := (st.1 + st.2.getD i 0 + key.getD (i % keylen) 0) % 256
  (j, swapCells st.2 i j)

/-- The array after the whole key schedule. -/
def ksa (key : List Nat) (keylen : Nat) : List Nat :=
  ((List.range 256).foldl (ksaStep key keylen) (0, List.range 256)).2

/-- Cursor `i` after one keystream round. -/
def nextI (i : Nat) : Nat := (i + 1) % 256

/-- Cursor `j` after one keystream round. -/
def nextJ (i j : Nat) (S : List Nat) : Nat := (j + S.getD (nextI i) 0) % 256

/-- The array after one keystream round. -/
def nextS (i j : Nat) (S : List Nat) : List Nat := swapCells S (nextI i) (nextJ i j S)

/-- The keystream byte produced by one round. -/
def ksByte (i j : Nat) (S : List Nat) : Nat :=
  let T := nextS i j S
  T.getD ((T.getD (nextI i) 0 + T.getD (nextJ i j S) 0) % 256) 0

/-- The first `n` keystream bytes from cursors `i`, `j` and array `S`. -/
def keystream (i j : Nat) (S : List Nat) : Nat → List Nat
  | 0 => []
  | n + 1 => ksByte i j S :: keystream (nextI i) (nextJ i j S) (nextS i j S) n

/-- Cursors and array after `n` keystream rounds. -/
def prgaEnd (i j : Nat) (S : List Nat) : Nat → Nat × Nat × List Nat
  | 0 => (i, j, S)
  | n + 1 => prgaEnd (nextI i) (nextJ i j S) (nextS i j S) n

/-- The stored result of `data[k] ^= ks`. -/
def xorByte (d ks : Nat) : Nat := (d ^^^ ks) % 256

/-- The part of the loop body of `rc4_crypt` that works on the cursors and
on `S` (lines 31-37 and the read of the keystream byte on line 40). -/
def cryptAdvance (i j : Nat) (S : List Nat) : Except Fault (Nat × Nat × List Nat × Nat) := do
  let i := (i + 1) % 256
  let si ← load S i
  let j := (j + si) % 256
  let temp ← load S i
  let sj ← load S j
  let S ← store S i sj
  let S ← store S j temp
  let a ← load S i
  let b ← load S j
  let ks ← load S ((a + b) % 256)
  pure (i, j, S, ks)

/-- The update `data[k] ^= ks` of line 40. -/
def xorAt (data : List Nat) (k ks : Nat) : Except Fault (List Nat) := do
  let d ← load data k
  store data k (d ^^^ ks)

/-- Put the untouched cells `pre` back in front of the buffer of a loop state. -/
def withFront (pre : List Nat) (r : Nat × Nat × List Nat × List Nat) :
    Nat × Nat × List Nat × List Nat :=
  (r.1, r.2.1, r.2.2.1, pre ++ r.2.2.2)

/-! ## Data of the known-answer vectors -/

/-- ASCII "Key". -/
def keyKey : List Nat := [75, 101, 121]

/-- ASCII "Plaintext". -/
def textPlaintext : List Nat := [80, 108, 97, 105, 110, 116, 101, 120, 116]

/-- ASCII "Wiki". -/
def keyWiki : List Nat := [87, 105, 107, 105]

/-- ASCII "pedia". -/
def textPedia : List Nat := [112, 101, 100, 105, 97]

/-! ## Memory accesses -/

theorem load_ok {m : List Nat} {i : Nat} (h : i < m.length) : load m i = .ok (m.getD i 0) := by
  simp [load, List.getElem?_eq_getElem h]

theorem store_ok {m : List Nat} {i : Nat} (v : Nat) (h : i < m.length) :
    store m i v = .ok (m.set i (v % 256)) := by
  simp [store, h]

theorem store_set_ok {S : List Nat} (i v w : Nat) {j : Nat} (h : j < S.length) :
    store (S.set i v) j w = .ok ((S.set i v).set j (w % 256)) :=
  store_ok _ (by simpa using h)

theorem cmod_ok (a : Nat) {b : Nat} (h : 0 < b) : cmod a b = .ok (a % b) := by
  simp [cmod, Nat.pos_iff_ne_zero.1 h]

/-! ## Permutations -/

theorem isPerm_iff_perm (S : List Nat) : IsPerm S ↔ S.Perm (List.range 256) := by
  constructor
  · rintro ⟨hl, _, hall⟩
    have hsub : (List.range 256).Subperm S :=
      List.subperm_of_subset (List.nodup_range 256) (fun v hv => hall v (List.mem_range.1 hv))
    exact (hsub.perm_of_length_le (by simp [hl])).symm
  · intro h
    refine ⟨by simpa using h.length_eq, h.nodup_iff.2 (List.nodup_range 256), fun v hv => ?_⟩
    exact h.mem_iff.2 (List.mem_range.2 hv)

theorem IsPerm.lt {S : List Nat} (h : IsPerm S) {x : Nat} (hx : x ∈ S) : x < 256 :=
  List.mem_range.1 (((isPerm_iff_perm S).1 h).mem_iff.1 hx)

theorem IsPerm.getD_lt {S : List Nat} (h : IsPerm S) (i : Nat) : S.getD i 0 < 256 := by
  by_cases hi : i < S.length
  · rw [List.getD_eq_getElem _ _ hi]
    exact h.lt (List.getElem_mem hi)
  · rw [List.getD_eq_default _ _ (Nat.le_of_not_lt hi)]; decide

theorem isPerm_range : IsPerm (List.range 256) :=
  (isPerm_iff_perm _).2 (List.Perm.refl _)

theorem swapCells_length (S : List Nat) (i j : Nat) : (swapCells S i j).length = S.length := by
  simp [swapCells]

theorem swapCells_perm {S : List Nat} {i j : Nat} (hi : i < S.length) (hj : j < S.length) :
    (swapCells S i j).Perm S := by
  rw [List.perm_iff_count]
  intro a
  have hci : S[i] = a → 0 < S.count a := fun h => List.count_pos_iff.2 (h ▸ List.getElem_mem hi)
  have hcj : S[j] = a → 0 < S.count a := fun h => List.count_pos_iff.2 (h ▸ List.getElem_mem hj)
  unfold swapCells
  rw [List.getD_eq_getElem _ _ hi, List.getD_eq_getElem _ _ hj]
  rw [List.count_set _ _ _ _ (by simpa using hj), List.count_set _ _ _ _ hi]
  simp only [List.getElem_set, beq_iff_eq]
  by_cases hij : i = j
  · subst hij
    by_cases h1 : S[i] = a
    · have := hci h1
      simp [h1]; omega
    · simp [h1]
  · by_cases h1 : S[i] = a <;> by_cases h2 : S[j] = a
    · have := hci h1
      simp [hij, h1, h2]; omega
    · have := hci h1
      simp [hij, h1, h2]; omega
    · have := hcj h2
      simp [hij, h1, h2]
    · simp [hij, h1, h2]

theorem swapCells_isPerm {S : List Nat} (h : IsPerm S) {i j : Nat} (hi : i < 256) (hj : j < 256) :
    IsPerm (swapCells S i j) := by
  rw [isPerm_iff_perm] at h ⊢
  have hl : S.length = 256 := by simpa using h.length_eq
  exact (swapCells_perm (hl ▸ hi) (hl ▸ hj)).trans h

theorem IsPerm.isState {S : List Nat} (h : IsPerm S) : IsState S :=
  ⟨h.1, fun _ hx => h.lt hx⟩

theorem IsState.cell_lt {S : List Nat} (h : IsState S) (i : Nat) : S.getD i 0 < 256 := by
  by_cases hi : i < S.length
  · rw [List.getD_eq_getElem _ _ hi]
    exact h.2 _ (List.getElem_mem hi)
  · rw [List.getD_eq_default _ _ (Nat.le_of_not_lt hi)]; decide

theorem swapCells_isState {S : List Nat} (h : IsState S) (i j : Nat) :
    IsState (swapCells S i j) := by
  refine ⟨by rw [swapCells_length]; exact h.1, fun x hx => ?_⟩
  rcases List.mem_or_eq_of_mem_set hx with h1 | h1
  · rcases List.mem_or_eq_of_mem_set h1 with h2 | h2
    · exact h.2 x h2
    · rw [h2]; exact h.cell_lt j
  · rw [h1]; exact h.cell_lt i

/-! ## Key schedule -/

theorem ok_bind {α β : Type} (a : α) (f : α → Except Fault β) : (Except.ok a >>= f) = f a := rfl

theorem error_bind {α β : Type} (e : Fault) (f : α → Except Fault β) :
    ((Except.error e : Except Fault α) >>= f) = .error e := rfl

theorem pure_eq_ok {α : Type} (a : α) : (pure a : Except Fault α) = .ok a := rfl

theorem rc4_init_fill_run (S : List Nat) (n : Nat) (hn : n ≤ S.length) (h256 : n ≤ 256) :
    (List.range n).foldlM rc4_init_fill S = .ok (List.range n ++ S.drop n) := by
  induction n with
  | zero => simp [pure_eq_ok]
  | succ n ih =>
    have hlt : n < (List.range n ++ S.drop n).length := by simp; omega
    rw [List.range_succ, List.foldlM_append, ih (by omega) (by omega), ok_bind]
    simp only [List.foldlM_cons, List.foldlM_nil, rc4_init_fill, store_ok n hlt, ok_bind,
      pure_eq_ok]
    congr 1
    rw [List.set_append_right _ _ (by simp), List.length_range, Nat.sub_self,
      List.drop_eq_getElem_cons (by omega : n < S.length), List.set_cons_zero,
      Nat.mod_eq_of_lt (by omega : n < 256)]
    simp

theorem rc4_init_fill_all {S : List Nat} (h : S.length = 256) :
    (List.range 256).foldlM rc4_init_fill S = .ok (List.range 256) := by
  rw [rc4_init_fill_run S 256 (by omega) (by omega), List.drop_of_length_le (by omega)]
  simp

theorem rc4_init_body_ok {key : List Nat} {keylen : Nat} (hk0 : 0 < keylen)
    (hk : keylen ≤ key.length) {S : List Nat} (hS : IsPerm S) (j : Nat) {i : Nat} (hi : i < 256) :
    rc4_init_body key keylen (j, S) i = .ok (ksaStep key keylen (j, S) i) := by
  have hl : S.length = 256 := hS.1
  have hSi : i < S.length := by omega
  have hkey : i % keylen < key.length := Nat.lt_of_lt_of_le (Nat.mod_lt _ hk0) hk
  have hj : (j + S.getD i 0 + key.getD (i % keylen) 0) % 256 < S.length := by
    rw [hl]; exact Nat.mod_lt _ (by decide)
  simp only [rc4_init_body, cmod_ok i hk0, load_ok hSi, load_ok hkey, load_ok hj, ok_bind,
    store_ok _ hSi, store_set_ok _ _ _ hj, pure_eq_ok, ksaStep, swapCells,
    Nat.mod_eq_of_lt (hS.getD_lt _)]

theorem ksaStep_isPerm (key : List Nat) (keylen : Nat) {S : List Nat} (hS : IsPerm S) (j : Nat)
    {i : Nat} (hi : i < 256) : IsPerm (ksaStep key keylen (j, S) i).2 :=
  swapCells_isPerm hS hi (Nat.mod_lt _ (by decide))

theorem rc4_init_loop_ok {key : List Nat} {keylen : Nat} (hk0 : 0 < keylen)
    (hk : keylen ≤ key.length) (l : List Nat) (hl : ∀ i ∈ l, i < 256) (j : Nat) (S : List Nat)
    (hS : IsPerm S) :
    l.foldlM (rc4_init_body key keylen) (j, S) = .ok (l.foldl (ksaStep key keylen) (j, S)) ∧
      IsPerm (l.foldl (ksaStep key keylen) (j, S)).2 := by
  induction l generalizing j S with
  | nil => exact ⟨rfl, hS⟩
  | cons i l ih =>
    have hi : i < 256 := hl i (List.mem_cons_self _ _)
    rw [List.foldlM_cons, rc4_init_body_ok hk0 hk hS j hi, ok_bind, List.foldl_cons]
    exact ih (fun x hx => hl x (List.mem_cons_of_mem _ hx)) _ _ (ksaStep_isPerm key keylen hS j hi)

theorem range256_lt : ∀ i ∈ List.range 256, i < 256 := by
  intro i hi
  exact List.mem_range.1 hi

theorem rc4_init_loop_range {key : List Nat} {keylen : Nat} (hk0 : 0 < keylen)
    (hk : keylen ≤ key.length) :
    (List.range 256).foldlM (rc4_init_body key keylen) (0, List.range 256) =
        .ok ((List.range 256).foldl (ksaStep key keylen) (0, List.range 256)) ∧
      IsPerm (ksa key keylen) :=
  rc4_init_loop_ok hk0 hk _ range256_lt _ _ isPerm_range

theorem ksa_isPerm {key : List Nat} {keylen : Nat} (hk0 : 0 < keylen) (hk : keylen ≤ key.length) :
    IsPerm (ksa key keylen) :=
  (rc4_init_loop_range hk0 hk).2

theorem rc4_init_ok {key : List Nat} {keylen : Nat} (hk0 : 0 < keylen) (hk : keylen ≤ key.length)
    {S : List Nat} (h : S.length = 256) : rc4_init S key keylen = .ok (ksa key keylen) := by
  have h2 := (rc4_init_loop_range hk0 hk).1
  unfold rc4_init
  rw [rc4_init_fill_all h, ok_bind, h2, ok_bind]
  unfold ksa
  generalize List.foldl (ksaStep key keylen) (0, List.range 256) (List.range 256) = r
  obtain ⟨a, b⟩ := r
  rfl

/-! ## Keystream application -/

theorem rc4_crypt_body_eq (i j : Nat) (S data : List Nat) (k : Nat) :
    rc4_crypt_body (i, j, S, data) k =
      cryptAdvance i j S >>= fun r =>
        xorAt data k r.2.2.2 >>= fun data1 => pure (r.1, r.2.1, r.2.2.1, data1) := by
  simp [rc4_crypt_body, cryptAdvance, xorAt, bind_assoc]

theorem cryptAdvance_state_ok {S : List Nat} (hS : IsState S) (i j : Nat) :
    cryptAdvance i j S = .ok (nextI i, nextJ i j S, nextS i j S, ksByte i j S) := by
  have hl : S.length = 256 := hS.1
  have hi : (i + 1) % 256 < S.length := by rw [hl]; exact Nat.mod_lt _ (by decide)
  have hj : (j + S.getD ((i + 1) % 256) 0) % 256 < S.length := by
    rw [hl]; exact Nat.mod_lt _ (by decide)
  have hT : (swapCells S ((i + 1) % 256) ((j + S.getD ((i + 1) % 256) 0) % 256)).length = 256 := by
    rw [swapCells_length, hl]
  have hi2 : (i + 1) % 256 <
      (swapCells S ((i + 1) % 256) ((j + S.getD ((i + 1) % 256) 0) % 256)).length := by
    rw [hT]; exact Nat.mod_lt _ (by decide)
  have hj2 : (j + S.getD ((i + 1) % 256) 0) % 256 <
      (swapCells S ((i + 1) % 256) ((j + S.getD ((i + 1) % 256) 0) % 256)).length := by
    rw [hT]; exact Nat.mod_lt _ (by decide)
  have hk : ∀ x : Nat, x % 256 <
      (swapCells S ((i + 1) % 256) ((j + S.getD ((i + 1) % 256) 0) % 256)).length := by
    intro x; rw [hT]; exact Nat.mod_lt _ (by decide)
  have hsw : ((S.set ((i + 1) % 256) (S.getD ((j + S.getD ((i + 1) % 256) 0) % 256) 0)).set
      ((j + S.getD ((i + 1) % 256) 0) % 256) (S.getD ((i + 1) % 256) 0)) =
      swapCells S ((i + 1) % 256) ((j + S.getD ((i + 1) % 256) 0) % 256) := rfl
  simp only [cryptAdvance, load_ok hi, load_ok hj, ok_bind, store_ok _ hi,
    store_set_ok _ _ _ hj, Nat.mod_eq_of_lt (hS.cell_lt _), hsw, load_ok hi2, load_ok hj2,
    load_ok (hk _), pure_eq_ok, nextI, nextJ, nextS, ksByte]

theorem cryptAdvance_ok {S : List Nat} (hS : IsPerm S) (i j : Nat) :
    cryptAdvance i j S = .ok (nextI i, nextJ i j S, nextS i j S, ksByte i j S) :=
  cryptAdvance_state_ok hS.isState i j

theorem xorAt_cons_zero (d : Nat) (ds : List Nat) (ks : Nat) :
    xorAt (d :: ds) 0 ks = .ok (xorByte d ks :: ds) := by
  simp [xorAt, load, store, xorByte, ok_bind]

theorem xorAt_append (pre D : List Nat) (k ks : Nat) :
    xorAt (pre ++ D) (k + pre.length) ks =
      match xorAt D k ks with
      | .ok D1 => .ok (pre ++ D1)
      | .error e => .error e := by
  have hget : (pre ++ D)[k + pre.length]? = D[k]? := by
    rw [List.getElem?_append_right (by omega)]; simp
  unfold xorAt load
  rw [hget]
  cases hd : D[k]? with
  | none => rfl
  | some v =>
    have hk : k < D.length := by
      rcases List.getElem?_eq_some.1 hd with ⟨h, _⟩; exact h
    have hk2 : k + pre.length < (pre ++ D).length := by simp; omega
    simp only [ok_bind, store_ok _ hk, store_ok _ hk2]
    rw [List.set_append_right _ _ (by omega)]
    simp

theorem rc4_crypt_shift (pre : List Nat) (l : List Nat) (i j : Nat) (S D : List Nat) :
    (l.map (· + pre.length)).foldlM rc4_crypt_body (i, j, S, pre ++ D) =
      match l.foldlM rc4_crypt_body (i, j, S, D) with
      | .ok r => .ok (withFront pre r)
      | .error e => .error e := by
  induction l generalizing i j S D with
  | nil => rfl
  | cons k l ih =>
    rw [List.map_cons, List.foldlM_cons, List.foldlM_cons, rc4_crypt_body_eq, rc4_crypt_body_eq]
    cases cryptAdvance i j S with
    | error e => rfl
    | ok r =>
      rw [ok_bind, ok_bind, xorAt_append]
      cases xorAt D k r.2.2.2 with
      | error e => rfl
      | ok D1 =>
        simp only [ok_bind, pure_eq_ok]
        exact ih _ _ _ _

theorem keystream_length (i j : Nat) (S : List Nat) (n : Nat) :
    (keystream i j S n).length = n := by
  induction n generalizing i j S with
  | zero => rfl
  | succ n ih => simp [keystream, ih]

theorem nextS_isPerm {S : List Nat} (hS : IsPerm S) (i j : Nat) : IsPerm (nextS i j S) :=
  swapCells_isPerm hS (Nat.mod_lt _ (by decide)) (Nat.mod_lt _ (by decide))

theorem ksByte_lt {S : List Nat} (hS : IsPerm S) (i j : Nat) : ksByte i j S < 256 :=
  (nextS_isPerm hS i j).getD_lt _

theorem keystream_lt {S : List Nat} (hS : IsPerm S) (i j n : Nat) :
    ∀ x ∈ keystream i j S n, x < 256 := by
  induction n generalizing i j S with
  | zero => intro x hx; cases hx
  | succ n ih =>
    intro x hx
    rcases List.mem_cons.1 hx with h | h
    · rw [h]; exact ksByte_lt hS i j
    · exact ih (nextS_isPerm hS i j) _ _ x h

theorem prgaEnd_isPerm {S : List Nat} (hS : IsPerm S) (i j n : Nat) :
    IsPerm (prgaEnd i j S n).2.2 := by
  induction n generalizing i j S with
  | zero => exact hS
  | succ n ih => exact ih (nextS_isPerm hS i j) _ _

theorem nextS_isState {S : List Nat} (hS : IsState S) (i j : Nat) : IsState (nextS i j S) :=
  swapCells_isState hS _ _

theorem ksByte_state_lt {S : List Nat} (hS : IsState S) (i j : Nat) : ksByte i j S < 256 :=
  (nextS_isState hS i j).cell_lt _

theorem keystream_state_lt {S : List Nat} (hS : IsState S) (i j n : Nat) :
    ∀ x ∈ keystream i j S n, x < 256 := by
  induction n generalizing i j S with
  | zero => intro x hx; cases hx
  | succ n ih =>
    intro x hx
    rcases List.mem_cons.1 hx with h | h
    · rw [h]; exact ksByte_state_lt hS i j
    · exact ih (nextS_isState hS i j) _ _ x h

theorem rc4_crypt_loop_state_ok {S : List Nat} (hS : IsState S) (i j : Nat) (D : List Nat) (n : Nat)
    (hn : n ≤ D.length) :
    rc4_crypt_loop i j S D n =
      .ok ((prgaEnd i j S n).1, (prgaEnd i j S n).2.1, (prgaEnd i j S n).2.2,
        List.zipWith xorByte D (keystream i j S n) ++ D.drop n) := by
  induction n generalizing i j S D with
  | zero => simp [rc4_crypt_loop, prgaEnd, keystream, pure_eq_ok]
  | succ n ih =>
    cases D with
    | nil => simp at hn
    | cons d ds =>
      have hmap : List.map Nat.succ (List.range n) =
          (List.range n).map (· + [xorByte d (ksByte i j S)].length) := rfl
      unfold rc4_crypt_loop
      rw [List.range_succ_eq_map, List.foldlM_cons, rc4_crypt_body_eq,
        cryptAdvance_state_ok hS, ok_bind, xorAt_cons_zero, ok_bind, pure_eq_ok, ok_bind, hmap]
      have hsh := rc4_crypt_shift [xorByte d (ksByte i j S)] (List.range n) (nextI i)
        (nextJ i j S) (nextS i j S) ds
      have hih := ih (nextS_isState hS i j) (nextI i) (nextJ i j S) ds
        (by simpa using hn)
      unfold rc4_crypt_loop at hih
      rw [hih] at hsh
      simpa [withFront, keystream, prgaEnd] using hsh

theorem rc4_crypt_upto_state_ok {S : List Nat} (hS : IsState S) (D : List Nat) (n : Nat)
    (hn : n ≤ D.length) :
    rc4_crypt S D n =
      .ok ((prgaEnd 0 0 S n).2.2, List.zipWith xorByte D (keystream 0 0 S n) ++ D.drop n) := by
  unfold rc4_crypt
  rw [rc4_crypt_loop_state_ok hS 0 0 D n hn, ok_bind]
  rfl

theorem rc4_crypt_state_ok {S : List Nat} (hS : IsState S) (D : List Nat) :
    rc4_crypt S D D.length =
      .ok ((prgaEnd 0 0 S D.length).2.2, List.zipWith xorByte D (keystream 0 0 S D.length)) := by
  rw [rc4_crypt_upto_state_ok hS D D.length (Nat.le_refl _), List.drop_length, List.append_nil]

theorem rc4_crypt_loop_ok {S : List Nat} (hS : IsPerm S) (i j : Nat) (D : List Nat) (n : Nat)
    (hn : n ≤ D.length) :
    rc4_crypt_loop i j S D n =
      .ok ((prgaEnd i j S n).1, (prgaEnd i j S n).2.1, (prgaEnd i j S n).2.2,
        List.zipWith xorByte D (keystream i j S n) ++ D.drop n) :=
  rc4_crypt_loop_state_ok hS.isState i j D n hn

theorem rc4_crypt_upto_ok {S : List Nat} (hS : IsPerm S) (D : List Nat) (n : Nat)
    (hn : n ≤ D.length) :
    rc4_crypt S D n =
      .ok ((prgaEnd 0 0 S n).2.2, List.zipWith xorByte D (keystream 0 0 S n) ++ D.drop n) :=
  rc4_crypt_upto_state_ok hS.isState D n hn

theorem rc4_crypt_ok {S : List Nat} (hS : IsPerm S) (D : List Nat) :
    rc4_crypt S D D.length =
      .ok ((prgaEnd 0 0 S D.length).2.2, List.zipWith xorByte D (keystream 0 0 S D.length)) :=
  rc4_crypt_state_ok hS.isState D

theorem memcpy_full {b D : List Nat} (hb : b.length = D.length) :
    memcpy b D D.length = .ok D := by
  simp [memcpy, hb]

theorem rc4_process_ok (malloc : Nat → Option (List Nat)) (S0 D K b : List Nat)
    (hm : malloc D.length = some b) (hb : b.length = D.length) (hS0 : S0.length = 256)
    (hK : 1 ≤ K.length) :
    rc4_process malloc S0 D D.length K K.length =
      .ok (some (List.zipWith xorByte D (keystream 0 0 (ksa K K.length) D.length))) := by
  unfold rc4_process
  rw [hm]
  simp only [memcpy_full hb, ok_bind, rc4_init_ok hK (Nat.le_refl _) hS0,
    rc4_crypt_ok (ksa_isPerm hK (Nat.le_refl _)), pure_eq_ok]

theorem xorByte_cancel {d k : Nat} (hd : d < 256) (hk : k < 256) :
    xorByte (xorByte d k) k = d := by
  have h1 : d ^^^ k < 256 := Nat.xor_lt_two_pow (n := 8) hd hk
  unfold xorByte
  rw [Nat.mod_eq_of_lt h1, Nat.xor_assoc, Nat.xor_self, Nat.xor_zero, Nat.mod_eq_of_lt hd]

theorem zipWith_xorByte_cancel (D ks : List Nat) (hD : IsBytes D) (hks : ∀ x ∈ ks, x < 256)
    (hlen : ks.length = D.length) :
    List.zipWith xorByte (List.zipWith xorByte D ks) ks = D := by
  induction D generalizing ks with
  | nil => simp
  | cons d ds ih =>
    cases ks with
    | nil => simp at hlen
    | cons k kss =>
      simp only [List.zipWith_cons_cons]
      rw [xorByte_cancel (hD d (List.mem_cons_self _ _)) (hks k (List.mem_cons_self _ _)),
        ih kss (fun x hx => hD x (List.mem_cons_of_mem _ hx))
          (fun x hx => hks x (List.mem_cons_of_mem _ hx)) (by simpa using hlen)]

theorem zipWith_xorByte_length (D : List Nat) (i j : Nat) (S : List Nat) :
    (List.zipWith xorByte D (keystream i j S D.length)).length = D.length := by
  simp [keystream_length]

theorem prgaEnd_add (i j : Nat) (S : List Nat) (m n : Nat) :
    prgaEnd i j S (m + n) =
      prgaEnd (prgaEnd i j S m).1 (prgaEnd i j S m).2.1 (prgaEnd i j S m).2.2 n := by
  induction m generalizing i j S with
  | zero => simp [prgaEnd]
  | succ m ih => rw [Nat.succ_add]; exact ih _ _ _

theorem keystream_add (i j : Nat) (S : List Nat) (m n : Nat) :
    keystream i j S (m + n) = keystream i j S m ++
      keystream (prgaEnd i j S m).1 (prgaEnd i j S m).2.1 (prgaEnd i j S m).2.2 n := by
  induction m generalizing i j S with
  | zero => simp [prgaEnd, keystream]
  | succ m ih =>
    rw [Nat.succ_add]
    simp only [keystream, prgaEnd, List.cons_append]
    rw [ih]

theorem prgaEnd_cursors (i j : Nat) (S : List Nat) (n : Nat) (hi : i < 256) (hj : j < 256) :
    (prgaEnd i j S n).1 < 256 ∧ (prgaEnd i j S n).2.1 < 256 := by
  induction n generalizing i j S with
  | zero => exact ⟨hi, hj⟩
  | succ n ih => exact ih _ _ _ (Nat.mod_lt _ (by decide)) (Nat.mod_lt _ (by decide))

theorem rc4_init_zero_keylen {S : List Nat} (h : S.length = 256) (key : List Nat) :
    rc4_init S key 0 = .error .divByZero := by
  unfold rc4_init
  rw [rc4_init_fill_all h, ok_bind, List.range_succ_eq_map, List.foldlM_cons]
  rfl

/-! ## Keys with the same schedule bytes, and the stream read from the front -/

theorem ksaStep_foldl_congr {K1 K2 : List Nat} {n1 n2 : Nat}
    (h : ∀ i, i < 256 → K1.getD (i % n1) 0 = K2.getD (i % n2) 0) (l : List Nat)
    (hl : ∀ i ∈ l, i < 256) (st : Nat × List Nat) :
    l.foldl (ksaStep K1 n1) st = l.foldl (ksaStep K2 n2) st := by
  induction l generalizing st with
  | nil => rfl
  | cons i l ih =>
    have hi : i < 256 := hl i (List.mem_cons_self _ _)
    have hstep : ksaStep K1 n1 st i = ksaStep K2 n2 st i := by
      simp only [ksaStep, h i hi]
    rw [List.foldl_cons, List.foldl_cons, hstep]
    exact ih (fun x hx => hl x (List.mem_cons_of_mem _ hx)) _

theorem ksa_congr {K1 K2 : List Nat} {n1 n2 : Nat}
    (h : ∀ i, i < 256 → K1.getD (i % n1) 0 = K2.getD (i % n2) 0) : ksa K1 n1 = ksa K2 n2 := by
  unfold ksa
  rw [ksaStep_foldl_congr h _ range256_lt]

theorem getElem?_append_self_mod (K : List Nat) (hK : 0 < K.length) (i : Nat) :
    (K ++ K)[i % (K ++ K).length]? = K[i % K.length]? := by
  have hlen : (K ++ K).length = K.length + K.length := List.length_append _ _
  have hr : i % (K.length + K.length) < K.length + K.length := Nat.mod_lt _ (by omega)
  have hmm : i % (K.length + K.length) % K.length = i % K.length :=
    Nat.mod_mod_of_dvd i ⟨2, by omega⟩
  rw [hlen, ← hmm]
  generalize i % (K.length + K.length) = r at hr
  by_cases hlt : r < K.length
  · rw [List.getElem?_append_left hlt, Nat.mod_eq_of_lt hlt]
  · have hge : K.length ≤ r := Nat.le_of_not_lt hlt
    rw [List.getElem?_append_right hge, Nat.mod_eq_sub_mod hge, Nat.mod_eq_of_lt (by omega)]

theorem ksa_double (K : List Nat) (hK : 0 < K.length) :
    ksa (K ++ K) (K ++ K).length = ksa K K.length := by
  apply ksa_congr
  intro i _
  rw [List.getD_eq_getElem?_getD, List.getD_eq_getElem?_getD, getElem?_append_self_mod K hK i]

theorem keystream_take (i j : Nat) (S : List Nat) {m n : Nat} (h : m ≤ n) :
    (keystream i j S n).take m = keystream i j S m := by
  obtain ⟨d, rfl⟩ := Nat.exists_eq_add_of_le h
  rw [keystream_add, List.take_left' (keystream_length _ _ _ _)]

theorem keystream_getElem? (i j : Nat) (S : List Nat) {k n : Nat} (h : k < n) :
    (keystream i j S n)[k]? = (keystream i j S (k + 1))[k]? := by
  rw [← keystream_take i j S (Nat.succ_le_of_lt h), List.getElem?_take_of_lt (Nat.lt_succ_self k)]

theorem xorByte_zero {k : Nat} (hk : k < 256) : xorByte 0 k = k := by
  unfold xorByte
  rw [Nat.zero_xor, Nat.mod_eq_of_lt hk]

theorem xorByte_eq_xor {d k : Nat} (hd : d < 256) (hk : k < 256) : xorByte d k = d ^^^ k := by
  unfold xorByte
  exact Nat.mod_eq_of_lt (Nat.xor_lt_two_pow (n := 8) hd hk)

theorem zipWith_xorByte_zero (ks : List Nat) (n : Nat) (hks : ∀ x ∈ ks, x < 256)
    (hn : ks.length = n) : List.zipWith xorByte (List.replicate n 0) ks = ks := by
  induction ks generalizing n with
  | nil => simp
  | cons k ks ih =>
    cases n with
    | zero => simp at hn
    | succ n =>
      rw [List.replicate_succ, List.zipWith_cons_cons, xorByte_zero (hks k (List.mem_cons_self _ _)),
        ih n (fun x hx => hks x (List.mem_cons_of_mem _ hx)) (by simpa using hn)]

theorem zipWith_xorByte_eq_xor (D ks : List Nat) (hD : IsBytes D) (hks : ∀ x ∈ ks, x < 256) :
    List.zipWith xorByte D ks = List.zipWith (· ^^^ ·) D ks := by
  induction D generalizing ks with
  | nil => simp
  | cons d ds ih =>
    cases ks with
    | nil => simp
    | cons k kss =>
      rw [List.zipWith_cons_cons, List.zipWith_cons_cons,
        xorByte_eq_xor (hD d (List.mem_cons_self _ _)) (hks k (List.mem_cons_self _ _)),
        ih kss (fun x hx => hD x (List.mem_cons_of_mem _ hx))
          (fun x hx => hks x (List.mem_cons_of_mem _ hx))]

theorem zipWith_xor_cancel_left (D ks : List Nat) (hlen : ks.length = D.length) :
    List.zipWith (· ^^^ ·) (List.zipWith (· ^^^ ·) D ks) D = ks := by
  induction D generalizing ks with
  | nil =>
    cases ks with
    | nil => rfl
    | cons k kss => simp at hlen
  | cons d ds ih =>
    cases ks with
    | nil => simp at hlen
    | cons k kss =>
      simp only [List.zipWith_cons_cons]
      rw [ih kss (by simpa using hlen), Nat.xor_comm d k, Nat.xor_assoc, Nat.xor_self,
        Nat.xor_zero]

/-! ## The claims -/

/-- C1: for every key K of length 1 to 256 and every byte sequence D, a
successful `rc4_process` call on D followed by a second `rc4_process` call with
the same key on its output returns D; likewise `rc4_init(K)` followed by
`rc4_crypt` applied to the output of a first `rc4_init(K)`/`rc4_crypt` pass
over D restores D. -/
theorem rc4_process_involution (malloc : Nat → Option (List Nat)) (S0 S1 K D b : List Nat)
    (hK1 : 1 ≤ K.length) (hK2 : K.length ≤ 256) (hD : IsBytes D)
    (hS0 : S0.length = 256) (hS1 : S1.length = 256)
    (hm : malloc D.length = some b) (hb : b.length = D.length) :
    ∃ C T T1 T2,
      rc4_process malloc S0 D D.length K K.length = .ok (some C) ∧
      rc4_process malloc S1 C C.length K K.length = .ok (some D) ∧
      rc4_init S0 K K.length = .ok T ∧ rc4_init S1 K K.length = .ok T ∧
      rc4_crypt T D D.length = .ok (T1, C) ∧ rc4_crypt T C C.length = .ok (T2, D) := by
  have _ := hK2
  have hP := ksa_isPerm hK1 (Nat.le_refl K.length)
  have hlen := zipWith_xorByte_length D 0 0 (ksa K K.length)
  have hcancel := zipWith_xorByte_cancel D (keystream 0 0 (ksa K K.length) D.length) hD
    (keystream_lt hP 0 0 D.length) (keystream_length _ _ _ _)
  refine ⟨List.zipWith xorByte D (keystream 0 0 (ksa K K.length) D.length), ksa K K.length,
    (prgaEnd 0 0 (ksa K K.length) D.length).2.2, (prgaEnd 0 0 (ksa K K.length) D.length).2.2,
    rc4_process_ok malloc S0 D K b hm hb hS0 hK1, ?_, rc4_init_ok hK1 (Nat.le_refl _) hS0,
    rc4_init_ok hK1 (Nat.le_refl _) hS1, rc4_crypt_ok hP D, ?_⟩
  · rw [rc4_process_ok malloc S1 _ K b (by rw [hlen]; exact hm) (by rw [hlen]; exact hb) hS1 hK1,
      hlen, hcancel]
  · rw [rc4_crypt_ok hP, hlen, hcancel]

theorem rc4_process_involution_witness :
    ∃ C T T1 T2,
      rc4_process mallocZero (List.replicate 256 0) [80, 108, 97] 3 [75, 101, 121] 3
        = .ok (some C) ∧
      rc4_process mallocZero (List.replicate 256 7) C C.length [75, 101, 121] 3
        = .ok (some [80, 108, 97]) ∧
      rc4_init (List.replicate 256 0) [75, 101, 121] 3 = .ok T ∧
      rc4_init (List.replicate 256 7) [75, 101, 121] 3 = .ok T ∧
      rc4_crypt T [80, 108, 97] 3 = .ok (T1, C) ∧
      rc4_crypt T C C.length = .ok (T2, [80, 108, 97]) :=
  rc4_process_involution mallocZero (List.replicate 256 0) (List.replicate 256 7)
    [75, 101, 121] [80, 108, 97] [0, 0, 0] (by decide) (by decide) (by decide)
    (List.length_replicate _ _) (List.length_replicate _ _) rfl rfl

/-! ## Known-answer vectors -/

theorem keystream_keyKey :
    List.zipWith xorByte textPlaintext (keystream 0 0 (ksa keyKey 3) 9) =
      [0xBB, 0xF3, 0x16, 0xE8, 0xD9, 0x40, 0xAF, 0x0A, 0xD3] := by
  decide!

theorem keystream_keyWiki :
    List.zipWith xorByte textPedia (keystream 0 0 (ksa keyWiki 4) 5) =
      [0x10, 0x21, 0xBF, 0x04, 0x20] := by
  decide!

/-- C2: `rc4_process` with key "Key" on input "Plaintext" returns the 9 bytes
BB F3 16 E8 D9 40 AF 0A D3, and with key "Wiki" on input "pedia" returns the
5 bytes 10 21 BF 04 20 (the allocation succeeding). -/
theorem rc4_known_answers (malloc : Nat → Option (List Nat)) (S0 b1 b2 : List Nat)
    (hS0 : S0.length = 256) (hm1 : malloc 9 = some b1) (hb1 : b1.length = 9)
    (hm2 : malloc 5 = some b2) (hb2 : b2.length = 5) :
    rc4_process malloc S0 textPlaintext 9 keyKey 3 =
        .ok (some [0xBB, 0xF3, 0x16, 0xE8, 0xD9, 0x40, 0xAF, 0x0A, 0xD3]) ∧
      rc4_process malloc S0 textPedia 5 keyWiki 4 =
        .ok (some [0x10, 0x21, 0xBF, 0x04, 0x20]) := by
  have e1 : textPlaintext.length = 9 := rfl
  have e2 : keyKey.length = 3 := rfl
  have e3 : textPedia.length = 5 := rfl
  have e4 : keyWiki.length = 4 := rfl
  have h1 := rc4_process_ok malloc S0 textPlaintext keyKey b1
    (by rw [e1]; exact hm1) (by rw [e1]; exact hb1) hS0 (by rw [e2]; decide)
  have h2 := rc4_process_ok malloc S0 textPedia keyWiki b2
    (by rw [e3]; exact hm2) (by rw [e3]; exact hb2) hS0 (by rw [e4]; decide)
  rw [e1, e2, keystream_keyKey] at h1
  rw [e3, e4, keystream_keyWiki] at h2
  exact ⟨h1, h2⟩

theorem rc4_known_answers_witness :
    rc4_process mallocZero (List.replicate 256 0) textPlaintext 9 keyKey 3 =
        .ok (some [0xBB, 0xF3, 0x16, 0xE8, 0xD9, 0x40, 0xAF, 0x0A, 0xD3]) ∧
      rc4_process mallocZero (List.replicate 256 0) textPedia 5 keyWiki 4 =
        .ok (some [0x10, 0x21, 0xBF, 0x04, 0x20]) :=
  rc4_known_answers mallocZero (List.replicate 256 0) (List.replicate 9 0) (List.replicate 5 0)
    (List.length_replicate _ _) rfl (List.length_replicate _ _) rfl (List.length_replicate _ _)

/-- C3: for every key K of length 1 to 256, `rc4_init` succeeds and leaves a
256-entry state that is a bijection on 0..255: no two entries are equal and
every value 0..255 occurs exactly once. -/
theorem rc4_init_permutation (S0 K : List Nat) (hK1 : 1 ≤ K.length) (hK2 : K.length ≤ 256)
    (hS0 : S0.length = 256) :
    ∃ T, rc4_init S0 K K.length = .ok T ∧ T.length = 256 ∧ T.Nodup ∧
      (∀ x ∈ T, x < 256) ∧ ∀ v, v < 256 → T.count v = 1 := by
  have _ := hK2
  have hP := ksa_isPerm hK1 (Nat.le_refl K.length)
  exact ⟨ksa K K.length, rc4_init_ok hK1 (Nat.le_refl _) hS0, hP.1, hP.2.1,
    fun x hx => hP.lt hx, fun v hv => List.count_eq_one_of_mem hP.2.1 (hP.2.2 v hv)⟩

theorem rc4_init_permutation_witness :
    ∃ T, rc4_init (List.replicate 256 0) [87, 105, 107, 105] 4 = .ok T ∧ T.length = 256 ∧
      T.Nodup ∧ (∀ x ∈ T, x < 256) ∧ ∀ v, v < 256 → T.count v = 1 :=
  rc4_init_permutation (List.replicate 256 0) [87, 105, 107, 105] (by decide) (by decide)
    (List.length_replicate _ _)

/-- C4 (fails on the code): with key length 0 and a successful allocation,
`rc4_process` does not return the null sentinel; it enters the key schedule
and evaluates `i % keylen` with `keylen = 0`. -/
theorem rc4_process_zero_key_divides_by_zero :
    rc4_process mallocZero (List.replicate 256 0) [80, 108, 97, 105, 110, 116, 101, 120, 116] 9
      [] 0 = .error .divByZero := by
  unfold rc4_process
  rw [show mallocZero 9 = some (List.replicate 9 0) from rfl]
  simp only [show memcpy (List.replicate 9 0) [80, 108, 97, 105, 110, 116, 101, 120, 116] 9 =
      .ok [80, 108, 97, 105, 110, 116, 101, 120, 116] from by decide, ok_bind,
    rc4_init_zero_keylen (List.length_replicate 256 0), error_bind]

/-- Counterexample to C5 as stated: on the identity permutation, one call on
the two bytes 0,0 yields 2,5, whereas a call on the first byte followed by a
call on the second byte with the state left by the first yields 2 and 2. -/
theorem rc4_crypt_second_call_resets_cursors :
    IsPerm (List.range 256) ∧
    rc4_crypt (List.range 256) [0] 1 = .ok (List.range 256, [2]) ∧
    (rc4_crypt (List.range 256) ([0] ++ [0]) 2).map Prod.snd = .ok [2, 5] ∧
    ¬ ∃ S1 A1 S2 B2, rc4_crypt (List.range 256) [0] 1 = .ok (S1, A1) ∧
        rc4_crypt S1 [0] 1 = .ok (S2, B2) ∧
        rc4_crypt (List.range 256) ([0] ++ [0]) 2 = .ok (S2, A1 ++ B2) := by
  have e1 : rc4_crypt (List.range 256) [0] 1 = .ok (List.range 256, [2]) := by decide!
  have e2 : (rc4_crypt (List.range 256) ([0] ++ [0]) 2).map Prod.snd = .ok [2, 5] := by decide!
  refine ⟨isPerm_range, e1, e2, ?_⟩
  rintro ⟨S1, A1, S2, B2, h1, h2, h3⟩
  rw [e1] at h1
  injection h1 with h1
  injection h1 with hS hA
  subst hS hA
  rw [e1] at h2
  injection h2 with h2
  injection h2 with hS hB
  subst hS hB
  rw [h3] at e2
  exact absurd e2 (by decide)

/-- C5 (amended): for every permutation state S and all buffers A and B, one
`rc4_crypt` call on `A ++ B` gives the output and final state obtained by
running the call on A and then continuing the loop on B with the array and the
cursors `i`, `j` left by the pass over A.  A second `rc4_crypt` call sets both
cursors back to 0, so it agrees with this when the pass over A ends with
`i = 0` and `j = 0`. -/
theorem rc4_crypt_continuation (S A B : List Nat) (hS : IsPerm S) :
    ∃ i j S1 A1 i2 j2 S2 B2,
      rc4_crypt_loop 0 0 S A A.length = .ok (i, j, S1, A1) ∧
      rc4_crypt S A A.length = .ok (S1, A1) ∧
      rc4_crypt_loop i j S1 B B.length = .ok (i2, j2, S2, B2) ∧
      rc4_crypt S (A ++ B) (A ++ B).length = .ok (S2, A1 ++ B2) ∧
      (i = 0 → j = 0 → rc4_crypt S1 B B.length = .ok (S2, B2)) := by
  have h1 := rc4_crypt_loop_ok hS 0 0 A A.length (Nat.le_refl _)
  have hS1 := prgaEnd_isPerm hS 0 0 A.length
  have h2 := rc4_crypt_loop_ok hS1 (prgaEnd 0 0 S A.length).1 (prgaEnd 0 0 S A.length).2.1
    B B.length (Nat.le_refl _)
  rw [List.drop_length, List.append_nil] at h1 h2
  refine ⟨_, _, _, _, _, _, _, _, h1, ?_, h2, ?_, ?_⟩
  · rw [rc4_crypt_ok hS]
  · rw [rc4_crypt_ok hS, List.length_append, keystream_add, prgaEnd_add,
      List.zipWith_append _ _ _ _ _ (by rw [keystream_length])]
  · intro hi hj
    rw [hi, hj] at h2 ⊢
    unfold rc4_crypt
    rw [h2, ok_bind]
    rfl

theorem rc4_crypt_continuation_witness :
    ∃ i j S1 A1 i2 j2 S2 B2,
      rc4_crypt_loop 0 0 (List.range 256) [0] 1 = .ok (i, j, S1, A1) ∧
      rc4_crypt (List.range 256) [0] 1 = .ok (S1, A1) ∧
      rc4_crypt_loop i j S1 [0] 1 = .ok (i2, j2, S2, B2) ∧
      rc4_crypt (List.range 256) ([0] ++ [0]) ([0] ++ [0]).length = .ok (S2, A1 ++ B2) ∧
      (i = 0 → j = 0 → rc4_crypt S1 [0] 1 = .ok (S2, B2)) :=
  rc4_crypt_continuation (List.range 256) [0] [0] isPerm_range

/-- C6: for every permutation state S and every buffer, `rc4_crypt` succeeds
and the state it leaves is again a permutation of 0..255; this holds after
every number `n` of processed bytes, up to the whole buffer. -/
theorem rc4_crypt_preserves_permutation (S D : List Nat) (n : Nat) (hS : IsPerm S)
    (hn : n ≤ D.length) :
    (∃ T out, rc4_crypt S D n = .ok (T, out) ∧ IsPerm T) ∧
      ∃ T out, rc4_crypt S D D.length = .ok (T, out) ∧ IsPerm T :=
  ⟨⟨_, _, rc4_crypt_upto_ok hS D n hn, prgaEnd_isPerm hS 0 0 n⟩,
    ⟨_, _, rc4_crypt_ok hS D, prgaEnd_isPerm hS 0 0 D.length⟩⟩

theorem rc4_crypt_preserves_permutation_witness :
    (∃ T out, rc4_crypt (List.range 256) [1, 2, 3] 2 = .ok (T, out) ∧ IsPerm T) ∧
      ∃ T out, rc4_crypt (List.range 256) [1, 2, 3] 3 = .ok (T, out) ∧ IsPerm T :=
  rc4_crypt_preserves_permutation (List.range 256) [1, 2, 3] 2 isPerm_range (by decide)

/-- C7: for every state S, `rc4_crypt` with `datalen = 0` leaves the buffer and
S unchanged, and for every key of length 1 to 256 `rc4_process` on an empty
input (allocation succeeding) returns an empty output. -/
theorem zero_length_is_noop (malloc : Nat → Option (List Nat)) (S data S0 K b : List Nat)
    (hK1 : 1 ≤ K.length) (hK2 : K.length ≤ 256) (hS0 : S0.length = 256)
    (hm : malloc 0 = some b) (hb : b.length = 0) :
    rc4_crypt S data 0 = .ok (S, data) ∧
      rc4_process malloc S0 [] 0 K K.length = .ok (some []) := by
  have _ := hK2
  refine ⟨rfl, ?_⟩
  have h := rc4_process_ok malloc S0 [] K b hm hb hS0 hK1
  simpa using h

theorem zero_length_is_noop_witness :
    rc4_crypt [9, 9] [1, 2, 3] 0 = .ok ([9, 9], [1, 2, 3]) ∧
      rc4_process mallocZero (List.replicate 256 0) [] 0 [75, 101, 121] 3 = .ok (some []) :=
  zero_length_is_noop mallocZero [9, 9] [1, 2, 3] (List.replicate 256 0) [75, 101, 121] []
    (by decide) (by decide) (List.length_replicate _ _) rfl rfl

/-- C8: for every key of length 1 to 256 (256 included) and every buffer, no
access of `rc4_init` or `rc4_crypt` is out of bounds and no `%` has a zero
divisor: the key index `i % keylen` is below `keylen`, `rc4_init` returns a
state, and for every `n` up to the buffer length `rc4_crypt` on `n` bytes
returns, with both cursors in [0,255]. -/
theorem rc4_no_fault (S0 K D : List Nat) (n i : Nat) (hK1 : 1 ≤ K.length)
    (hK2 : K.length ≤ 256) (hS0 : S0.length = 256) (hn : n ≤ D.length) :
    i % K.length < K.length ∧
    ∃ T, rc4_init S0 K K.length = .ok T ∧
      ∃ ci cj T1 out,
        rc4_crypt_loop 0 0 T D n = .ok (ci, cj, T1, out) ∧ ci < 256 ∧ cj < 256 ∧
        rc4_crypt T D n = .ok (T1, out) := by
  have _ := hK2
  have hP := ksa_isPerm hK1 (Nat.le_refl K.length)
  have hc := prgaEnd_cursors 0 0 (ksa K K.length) n (by decide) (by decide)
  exact ⟨Nat.mod_lt _ hK1, ksa K K.length, rc4_init_ok hK1 (Nat.le_refl _) hS0,
    _, _, _, _, rc4_crypt_loop_ok hP 0 0 D n hn, hc.1, hc.2, rc4_crypt_upto_ok hP D n hn⟩

theorem rc4_no_fault_witness :
    255 % (List.replicate 256 65).length < (List.replicate 256 65).length ∧
    ∃ T, rc4_init (List.replicate 256 0) (List.replicate 256 65) (List.replicate 256 65).length
        = .ok T ∧
      ∃ ci cj T1 out,
        rc4_crypt_loop 0 0 T [1, 2, 3] 3 = .ok (ci, cj, T1, out) ∧ ci < 256 ∧ cj < 256 ∧
        rc4_crypt T [1, 2, 3] 3 = .ok (T1, out) :=
  rc4_no_fault (List.replicate 256 0) (List.replicate 256 65) [1, 2, 3] 3 255
    (by rw [List.length_replicate]; decide) (by rw [List.length_replicate])
    (List.length_replicate _ _) (by decide)

/-- C9: for every input D and every key K of length 1 to 256, when the
allocation succeeds `rc4_process` copies D into the new block and returns the
buffer that `rc4_crypt` produces from the state of `rc4_init(K)` on that copy;
the returned buffer has the length of D. -/
theorem rc4_process_is_init_then_crypt (malloc : Nat → Option (List Nat)) (S0 K D b : List Nat)
    (hK1 : 1 ≤ K.length) (hK2 : K.length ≤ 256) (hS0 : S0.length = 256)
    (hm : malloc D.length = some b) (hb : b.length = D.length) :
    ∃ T T1 out, memcpy b D D.length = .ok D ∧ rc4_init S0 K K.length = .ok T ∧
      rc4_crypt T D D.length = .ok (T1, out) ∧
      rc4_process malloc S0 D D.length K K.length = .ok (some out) ∧
      out.length = D.length := by
  have _ := hK2
  have hP := ksa_isPerm hK1 (Nat.le_refl K.length)
  exact ⟨_, _, _, memcpy_full hb, rc4_init_ok hK1 (Nat.le_refl _) hS0, rc4_crypt_ok hP D,
    rc4_process_ok malloc S0 D K b hm hb hS0 hK1, zipWith_xorByte_length D 0 0 _⟩

theorem rc4_process_is_init_then_crypt_witness :
    ∃ T T1 out, memcpy [0, 0] [104, 105] 2 = .ok [104, 105] ∧
      rc4_init (List.replicate 256 0) [75, 101, 121] 3 = .ok T ∧
      rc4_crypt T [104, 105] 2 = .ok (T1, out) ∧
      rc4_process mallocZero (List.replicate 256 0) [104, 105] 2 [75, 101, 121] 3
        = .ok (some out) ∧
      out.length = 2 :=
  rc4_process_is_init_then_crypt mallocZero (List.replicate 256 0) [75, 101, 121] [104, 105]
    [0, 0] (by decide) (by decide) (List.length_replicate _ _) rfl rfl

/-- C10: for every key K of length 1 to 256, the state left by `rc4_init` does
not depend on what the 256-byte array held before the call: two runs with the
same K from arbitrary arrays S and S2 end in the same state.  `rc4_crypt` on
equal (state, buffer) pairs gives equal buffers and equal final states. -/
theorem rc4_deterministic (S S2 K T1 T2 D1 D2 : List Nat) (n : Nat) (hK1 : 1 ≤ K.length)
    (hK2 : K.length ≤ 256) (hS : S.length = 256) (hS2 : S2.length = 256)
    (hT : T1 = T2) (hD : D1 = D2) :
    (∃ T, rc4_init S K K.length = .ok T ∧ rc4_init S2 K K.length = .ok T) ∧
      rc4_crypt T1 D1 n = rc4_crypt T2 D2 n := by
  have _ := hK2
  refine ⟨⟨ksa K K.length, rc4_init_ok hK1 (Nat.le_refl _) hS,
    rc4_init_ok hK1 (Nat.le_refl _) hS2⟩, ?_⟩
  rw [hT, hD]

theorem rc4_deterministic_witness :
    (∃ T, rc4_init (List.replicate 256 0) [75, 101, 121] 3 = .ok T ∧
      rc4_init (List.range 256) [75, 101, 121] 3 = .ok T) ∧
      rc4_crypt (List.range 256) [1, 2] 2 = rc4_crypt (List.range 256) [1, 2] 2 :=
  rc4_deterministic (List.replicate 256 0) (List.range 256) [75, 101, 121] (List.range 256)
    (List.range 256) [1, 2] [1, 2] 2 (by decide) (by decide) (List.length_replicate _ _)
    (List.length_range 256) rfl rfl

theorem ksa_keyKey_ne_keyWiki : ksa keyKey 3 ≠ ksa keyWiki 4 := by
  intro h
  have hP : IsPerm (ksa keyWiki 4) := @ksa_isPerm keyWiki 4 (by decide) (by decide)
  have hk := ksByte_lt hP 0 0
  have h1 := keystream_keyKey
  have h2 := keystream_keyWiki
  rw [h] at h1
  generalize ksa keyWiki 4 = T at h1 h2 hk
  simp only [textPlaintext, textPedia, keystream, List.zipWith_cons_cons] at h1 h2
  have e1 : xorByte 80 (ksByte 0 0 T) = 187 := (List.cons.inj h1).1
  have e2 : xorByte 112 (ksByte 0 0 T) = 16 := (List.cons.inj h2).1
  generalize ksByte 0 0 T = k at hk e1 e2
  have hall : ∀ x, x < 256 → xorByte 80 x = 187 → xorByte 112 x = 16 → False := by decide!
  exact hall k hk e1 e2

/-- Counterexample to C11 as stated: the distinct keys `[1]` (length 1) and
`[1, 1]` (length 2) leave the same state after `rc4_init`. -/
theorem rc4_init_distinct_keys_same_state :
    ([1] : List Nat) ≠ [1, 1] ∧
      ∃ T, rc4_init (List.replicate 256 0) [1] 1 = .ok T ∧
        rc4_init (List.replicate 256 0) [1, 1] 2 = .ok T := by
  refine ⟨by decide, ksa [1] 1, ?_, ?_⟩
  · exact @rc4_init_ok [1] 1 (by decide) (by decide) _ (List.length_replicate _ _)
  · rw [@rc4_init_ok [1, 1] 2 (by decide) (by decide) _ (List.length_replicate _ _)]
    exact congrArg Except.ok (ksa_double [1] (by decide))

/-- C11 (amended): for keys K1, K2 of length 1 to 256, `rc4_init` leaves the
same permutation state whenever the two keys give the same schedule bytes
`key[i % keylen]` for i = 0..255, also when K1 and K2 differ (as K and
K ++ K do); the states are different for particular pairs of keys, such as
"Key" and "Wiki", not for every pair of distinct keys. -/
theorem rc4_init_same_schedule_same_state (S S2 K1 K2 : List Nat)
    (hK1 : 1 ≤ K1.length) (hK1u : K1.length ≤ 256) (hK2 : 1 ≤ K2.length)
    (hK2u : K2.length ≤ 256) (hS : S.length = 256) (hS2 : S2.length = 256)
    (h : ∀ i, i < 256 → K1[i % K1.length]? = K2[i % K2.length]?) :
    (∃ T, rc4_init S K1 K1.length = .ok T ∧ rc4_init S2 K2 K2.length = .ok T ∧ IsPerm T) ∧
      rc4_init S keyKey 3 ≠ rc4_init S2 keyWiki 4 := by
  have _ := hK1u
  have _ := hK2u
  have hk : ksa K1 K1.length = ksa K2 K2.length := by
    apply ksa_congr
    intro i hi
    rw [List.getD_eq_getElem?_getD, List.getD_eq_getElem?_getD, h i hi]
  refine ⟨⟨ksa K1 K1.length, rc4_init_ok hK1 (Nat.le_refl _) hS, ?_,
    ksa_isPerm hK1 (Nat.le_refl _)⟩, ?_⟩
  · rw [hk]; exact rc4_init_ok hK2 (Nat.le_refl _) hS2
  · rw [@rc4_init_ok keyKey 3 (by decide) (by decide) _ hS,
      @rc4_init_ok keyWiki 4 (by decide) (by decide) _ hS2]
    intro hc
    exact ksa_keyKey_ne_keyWiki (Except.ok.inj hc)

theorem rc4_init_same_schedule_same_state_witness :
    (∃ T, rc4_init (List.replicate 256 0) [7, 9] 2 = .ok T ∧
      rc4_init (List.range 256) [7, 9, 7, 9] 4 = .ok T ∧ IsPerm T) ∧
      rc4_init (List.replicate 256 0) keyKey 3 ≠ rc4_init (List.range 256) keyWiki 4 :=
  rc4_init_same_schedule_same_state (List.replicate 256 0) (List.range 256) [7, 9] [7, 9, 7, 9]
    (by decide) (by decide) (by decide) (by decide) (List.length_replicate _ _)
    (List.length_range 256) (fun i _ => (getElem?_append_self_mod [7, 9] (by decide) i).symm)

/-- C12: when the allocation of the output buffer fails, `rc4_process` returns
the null sentinel whatever the input, the key and the key length are (so
without running `rc4_init` or `rc4_crypt`, which fault on some of them); when
the allocation succeeds, a result it returns is never null, and for a key of
length 1 to 256 it does return a buffer; `allocate_memory` returns null exactly
when the underlying allocation does. -/
theorem allocation_failure_path (mfail mok : Nat → Option (List Nat))
    (S input key S0 D K b : List Nat) (inputLen keyLen size : Nat)
    (hfail : mfail inputLen = none)
    (hok : mok D.length = some b) (hb : b.length = D.length) (hS0 : S0.length = 256)
    (hK1 : 1 ≤ K.length) (hK2 : K.length ≤ 256) :
    rc4_process mfail S input inputLen key keyLen = .ok none ∧
      (∀ S2 key2 keyLen2 r, rc4_process mok S2 D D.length key2 keyLen2 = .ok r → r ≠ none) ∧
      (∃ out, rc4_process mok S0 D D.length K K.length = .ok (some out)) ∧
      (allocate_memory mfail inputLen = none) ∧ (allocate_memory mok D.length = some b) ∧
      (allocate_memory mok size = none ↔ mok size = none) := by
  have _ := hK2
  refine ⟨?_, ?_, ⟨_, rc4_process_ok mok S0 D K b hok hb hS0 hK1⟩, hfail, hok, Iff.rfl⟩
  · unfold rc4_process
    rw [hfail]
    rfl
  · intro S2 key2 keyLen2 r hr
    unfold rc4_process at hr
    rw [hok] at hr
    simp only [memcpy_full hb, ok_bind] at hr
    cases h1 : rc4_init S2 key2 keyLen2 with
    | error e => rw [h1] at hr; cases hr
    | ok T =>
      rw [h1, ok_bind] at hr
      cases h2 : rc4_crypt T D D.length with
      | error e => rw [h2] at hr; cases hr
      | ok p =>
        rw [h2, ok_bind] at hr
        intro hn
        rw [hn] at hr
        cases hr

theorem allocation_failure_path_witness :
    rc4_process (fun _ => none) [] [1, 2, 3] 7 [] 0 = .ok none ∧
      (∀ S2 key2 keyLen2 r,
        rc4_process mallocZero S2 [104, 105] [104, 105].length key2 keyLen2 = .ok r →
          r ≠ none) ∧
      (∃ out, rc4_process mallocZero (List.replicate 256 0) [104, 105] [104, 105].length
        keyKey keyKey.length = .ok (some out)) ∧
      (allocate_memory (fun _ => none) 7 = none) ∧
      (allocate_memory mallocZero [104, 105].length = some [0, 0]) ∧
      (allocate_memory mallocZero 16 = none ↔ mallocZero 16 = none) :=
  allocation_failure_path (fun _ => none) mallocZero [] [1, 2, 3] [] (List.replicate 256 0)
    [104, 105] keyKey [0, 0] 7 0 16 rfl rfl rfl (List.length_replicate _ _) (by decide)
    (by decide)

/-- C13: for every 256-byte state S and every two buffers D1, D2 of the same
length n, `rc4_crypt` leaves the same final state for both, and
`out1[k] XOR D1[k] = out2[k] XOR D2[k]` for every k < n: both are byte k of
the output of `rc4_crypt` on n zero bytes, and `rc4_crypt(S, D)` is D XOR
that output bytewise. -/
theorem rc4_crypt_keystream_independent_of_data (S D1 D2 : List Nat) (hS : IsState S)
    (hD1 : IsBytes D1) (hD2 : IsBytes D2) (hlen : D1.length = D2.length) :
    ∃ T out1 out2 ks,
      rc4_crypt S D1 D1.length = .ok (T, out1) ∧
      rc4_crypt S D2 D2.length = .ok (T, out2) ∧
      rc4_crypt S (List.replicate D1.length 0) D1.length = .ok (T, ks) ∧
      out1.length = D1.length ∧ out2.length = D1.length ∧ ks.length = D1.length ∧
      List.zipWith (· ^^^ ·) out1 D1 = List.zipWith (· ^^^ ·) out2 D2 ∧
      List.zipWith (· ^^^ ·) out1 D1 = ks ∧
      out1 = List.zipWith (· ^^^ ·) D1 ks ∧ out2 = List.zipWith (· ^^^ ·) D2 ks := by
  have hks := keystream_state_lt hS 0 0 D1.length
  have hkl : (keystream 0 0 S D1.length).length = D1.length := keystream_length _ _ _ _
  have h1 := rc4_crypt_state_ok hS D1
  have h2 := rc4_crypt_state_ok hS D2
  have h0 := rc4_crypt_state_ok hS (List.replicate D1.length 0)
  rw [List.length_replicate, zipWith_xorByte_zero _ _ hks hkl] at h0
  rw [← hlen] at h2
  rw [zipWith_xorByte_eq_xor D1 _ hD1 hks] at h1
  rw [zipWith_xorByte_eq_xor D2 _ hD2 hks] at h2
  refine ⟨_, _, _, _, h1, ?_, h0, ?_, ?_, hkl, ?_, ?_, rfl, rfl⟩
  · rw [← hlen]; exact h2
  · rw [List.length_zipWith, hkl, Nat.min_self]
  · rw [List.length_zipWith, hkl, ← hlen, Nat.min_self]
  · rw [zipWith_xor_cancel_left D1 _ hkl, zipWith_xor_cancel_left D2 _ (by rw [hkl, hlen])]
  · exact zipWith_xor_cancel_left D1 _ hkl

theorem rc4_crypt_keystream_independent_of_data_witness :
    ∃ T out1 out2 ks,
      rc4_crypt (List.replicate 256 7) [1, 2] [1, 2].length = .ok (T, out1) ∧
      rc4_crypt (List.replicate 256 7) [200, 0] [200, 0].length = .ok (T, out2) ∧
      rc4_crypt (List.replicate 256 7) (List.replicate [1, 2].length 0) [1, 2].length
        = .ok (T, ks) ∧
      out1.length = [1, 2].length ∧ out2.length = [1, 2].length ∧
      ks.length = [1, 2].length ∧
      List.zipWith (· ^^^ ·) out1 [1, 2] = List.zipWith (· ^^^ ·) out2 [200, 0] ∧
      List.zipWith (· ^^^ ·) out1 [1, 2] = ks ∧
      out1 = List.zipWith (· ^^^ ·) [1, 2] ks ∧ out2 = List.zipWith (· ^^^ ·) [200, 0] ks :=
  rc4_crypt_keystream_independent_of_data (List.replicate 256 7) [1, 2] [200, 0]
    ⟨List.length_replicate _ _, fun d hd => by rw [List.eq_of_mem_replicate hd]; decide⟩
    (by decide) (by decide) rfl

/-- C14: for every key K of length 1 to 256, every input D and every
m <= length(D), the first m bytes of `rc4_process(D, K)` are
`rc4_process(first m bytes of D, K)`; and byte k of the output depends only on
K, k and D[k]: a second input D2 with the same byte at position k gets the
same output byte there (the allocations succeeding). -/
theorem rc4_process_front_bytes (malloc : Nat → Option (List Nat))
    (S0 S1 S2 K D D2 b bm b2 : List Nat) (m k : Nat)
    (hK1 : 1 ≤ K.length) (hK2 : K.length ≤ 256)
    (hS0 : S0.length = 256) (hS1 : S1.length = 256) (hS2 : S2.length = 256)
    (hm : m ≤ D.length)
    (hal : malloc D.length = some b) (hb : b.length = D.length)
    (halm : malloc m = some bm) (hbm : bm.length = m)
    (hal2 : malloc D2.length = some b2) (hb2 : b2.length = D2.length)
    (hk : k < D.length) (hk2 : k < D2.length) (hDk : D[k]? = D2[k]?) :
    ∃ out outm out2,
      rc4_process malloc S0 D D.length K K.length = .ok (some out) ∧
      rc4_process malloc S1 (D.take m) m K K.length = .ok (some outm) ∧
      out.take m = outm ∧
      rc4_process malloc S2 D2 D2.length K K.length = .ok (some out2) ∧
      out[k]? = out2[k]? := by
  have _ := hK2
  have hl : (D.take m).length = m := by rw [List.length_take]; exact Nat.min_eq_left hm
  have hpm := rc4_process_ok malloc S1 (D.take m) K bm (by rw [hl]; exact halm)
    (by rw [hl]; exact hbm) hS1 hK1
  rw [hl] at hpm
  refine ⟨_, _, _, rc4_process_ok malloc S0 D K b hal hb hS0 hK1, hpm, ?_,
    rc4_process_ok malloc S2 D2 K b2 hal2 hb2 hS2 hK1, ?_⟩
  · rw [List.take_zipWith, keystream_take _ _ _ hm]
  · rw [List.getElem?_zipWith, List.getElem?_zipWith, keystream_getElem? _ _ _ hk,
      keystream_getElem? _ _ _ hk2, hDk]

theorem rc4_process_front_bytes_witness :
    ∃ out outm out2,
      rc4_process mallocZero (List.replicate 256 0) [1, 2, 3] [1, 2, 3].length
        keyKey keyKey.length = .ok (some out) ∧
      rc4_process mallocZero (List.replicate 256 1) (List.take 2 [1, 2, 3]) 2
        keyKey keyKey.length = .ok (some outm) ∧
      out.take 2 = outm ∧
      rc4_process mallocZero (List.replicate 256 2) [9, 2] [9, 2].length
        keyKey keyKey.length = .ok (some out2) ∧
      out[1]? = out2[1]? :=
  rc4_process_front_bytes mallocZero (List.replicate 256 0) (List.replicate 256 1)
    (List.replicate 256 2) keyKey [1, 2, 3] [9, 2] [0, 0, 0] [0, 0] [0, 0] 2 1
    (by decide) (by decide) (List.length_replicate _ _) (List.length_replicate _ _)
    (List.length_replicate _ _) (by decide) rfl rfl rfl rfl rfl rfl (by decide) (by decide) rfl

/-- C15: for every non-empty key K, `rc4_init` leaves the same state for K and
for K ++ K (the key bytes repeated, the key length doubled), because the
schedule byte `key[i % keylen]` is the same for both at every i; hence
`rc4_process(D, K)` and `rc4_process(D, K ++ K)` return the same buffer for
every D (the allocation succeeding). -/
theorem rc4_repeated_key_equivalent (malloc : Nat → Option (List Nat))
    (S0 S1 K D b : List Nat) (i : Nat) (hK : 1 ≤ K.length)
    (hS0 : S0.length = 256) (hS1 : S1.length = 256)
    (hal : malloc D.length = some b) (hb : b.length = D.length) :
    (K ++ K).length = 2 * K.length ∧
      (K ++ K)[i % (K ++ K).length]? = K[i % K.length]? ∧
      (∃ T, rc4_init S0 K K.length = .ok T ∧
        rc4_init S1 (K ++ K) (K ++ K).length = .ok T) ∧
      ∃ out, rc4_process malloc S0 D D.length K K.length = .ok (some out) ∧
        rc4_process malloc S1 D D.length (K ++ K) (K ++ K).length = .ok (some out) := by
  have hKK : 1 ≤ (K ++ K).length := by rw [List.length_append]; omega
  refine ⟨by rw [List.length_append]; omega, getElem?_append_self_mod K hK i,
    ⟨ksa K K.length, rc4_init_ok hK (Nat.le_refl _) hS0, ?_⟩,
    ⟨_, rc4_process_ok malloc S0 D K b hal hb hS0 hK, ?_⟩⟩
  · rw [rc4_init_ok hKK (Nat.le_refl _) hS1, ksa_double K hK]
  · rw [rc4_process_ok malloc S1 D (K ++ K) b hal hb hS1 hKK, ksa_double K hK]

theorem rc4_repeated_key_equivalent_witness :
    (keyKey ++ keyKey).length = 2 * keyKey.length ∧
      (keyKey ++ keyKey)[200 % (keyKey ++ keyKey).length]? = keyKey[200 % keyKey.length]? ∧
      (∃ T, rc4_init (List.replicate 256 0) keyKey keyKey.length = .ok T ∧
        rc4_init (List.replicate 256 1) (keyKey ++ keyKey) (keyKey ++ keyKey).length = .ok T) ∧
      ∃ out, rc4_process mallocZero (List.replicate 256 0) [1, 2, 3] [1, 2, 3].length
          keyKey keyKey.length = .ok (some out) ∧
        rc4_process mallocZero (List.replicate 256 1) [1, 2, 3] [1, 2, 3].length
          (keyKey ++ keyKey) (keyKey ++ keyKey).length = .ok (some out) :=
  rc4_repeated_key_equivalent mallocZero (List.replicate 256 0) (List.replicate 256 1) keyKey
    [1, 2, 3] [0, 0, 0] 200 (by decide) (List.length_replicate _ _) (List.length_replicate _ _)
    rfl rfl

end RC4
